import Mathlib

/-!
Shallow embedding of the `boundednumbers` repository
(`src/numbers/functions.py`, `src/numbers/bounded.py`,
`src/numbers/modulo_int.py`, `src/numbers/unit_float.py`).

Conventions of the embedding:
* Python integers are `ℤ`; Python floats are modelled as `ℚ`
  (the clamping logic under verification is representation-independent).
* Python `%` on integers follows the sign of the divisor: it is `Int.fmod`;
  Python `//` is floor division: `Int.fdiv`.
* A Python `raise` is an `Except NumError` error value, with one
  constructor per logical error kind of the spec.
-/

namespace BoundedNumbers

/-- Logical error kinds (spec §7): each `raise` site in the source maps to
the corresponding constructor. `zeroDivision` stands for Python's
`ZeroDivisionError` raised by `//`, `%` and `/` with a zero operand. -/
inductive NumError
  | invalidRange
  | invalidModulus
  | modulusMismatch
  | notInvertible
  | invalidStep
  | invalidAmount
  | usageError
  | zeroDivision
deriving DecidableEq, Repr

instance {ε α : Type} [DecidableEq ε] [DecidableEq α] : DecidableEq (Except ε α) := fun a b =>
  match a, b with
  | .ok x, .ok y =>
      if h : x = y then .isTrue (by rw [h]) else .isFalse (by intro hc; cases hc; exact h rfl)
  | .error x, .error y =>
      if h : x = y then .isTrue (by rw [h]) else .isFalse (by intro hc; cases hc; exact h rfl)
  | .ok _, .error _ => .isFalse (by intro hc; cases hc)
  | .error _, .ok _ => .isFalse (by intro hc; cases hc)

/-- Python's integer `%`: remainder with the sign of the divisor. -/
def pymod (a b : ℤ) : ℤ := Int.fmod a b

/-- Python's integer `//`: floor division. -/
def pydiv (a b : ℤ) : ℤ := Int.fdiv a b

/-! ### `functions.py` -/

/-- `clamp(value, min_value, max_value) = max(min(value, max_value), min_value)`.
Generic over a linear order, as the Python function is used both on ints
(`bounded.py`) and on floats (`clamp01`). -/
def clamp {α : Type} [LinearOrder α] (value min_value max_value : α) : α :=
  max (min value max_value) min_value

/-- `clamp01(value) = clamp(value, 0.0, 1.0)` (floats are modelled as `ℚ`). -/
def clamp01 (value : ℚ) : ℚ := clamp value 0 1

/-- `bounce(value, min_value, max_value)` from `functions.py`: raises
`ValueError` (InvalidRange) when `max_value - min_value <= 0`, else folds
`value` into `[min_value, max_value]` as a triangle wave. -/
def bounce (value min_value max_value : ℤ) : Except NumError ℤ :=
  let range_size := max_value - min_value
  if range_size ≤ 0 then .error .invalidRange
  else
    let mod_value := pymod (value - min_value) (2 * range_size)
    if mod_value > range_size then .ok (max_value - (mod_value - range_size))
    else .ok (min_value + mod_value)

/-- `cyclic_wrap(value, min_value, max_value)` from `functions.py`:
`(value - min_value) % size + min_value` with `size = max_value - min_value + 1`.
The Python `%` raises `ZeroDivisionError` when `size == 0`. -/
def cyclic_wrap (value min_value max_value : ℤ) : Except NumError ℤ :=
  let size := max_value - min_value + 1
  if size = 0 then .error .zeroDivision
  else .ok (pymod (value - min_value) size + min_value)

/-! ### `modulo_int.py`: the `ModuloInt` type -/

/-- A `ModuloInt` value: the stored integer payload (`int(self)`, called the
residue) together with its `modulus` attribute. -/
structure ModuloInt where
  residue : ℤ
  modulus : ℤ
deriving DecidableEq, Repr

/-- `ModuloInt.__new__`: rejects `modulus <= 0` (InvalidModulus), otherwise
stores `value % modulus`. -/
def ModuloInt.make (value modulus : ℤ) : Except NumError ModuloInt :=
  if modulus ≤ 0 then .error .invalidModulus
  else .ok ⟨pymod value modulus, modulus⟩

/-- The right operand of a binary operation: either another `ModuloInt`
or a plain Python `int`. -/
inductive PyOperand
  | mInt (m : ModuloInt)
  | int (n : ℤ)
deriving DecidableEq, Repr

/-- `ModuloInt._coerce`: a `ModuloInt` operand with a different modulus is a
hard error (ModulusMismatch); with the same modulus it contributes `int(other)`;
a plain integer contributes itself. -/
def ModuloInt.coerce (self : ModuloInt) (other : PyOperand) : Except NumError ℤ :=
  match other with
  | .mInt o =>
      if o.modulus ≠ self.modulus then .error .modulusMismatch
      else .ok o.residue
  | .int n => .ok n

/-- `ModuloInt.opposite`: `ModuloInt(-int(self), self.modulus)`. -/
def ModuloInt.opposite (self : ModuloInt) : Except NumError ModuloInt :=
  ModuloInt.make (-self.residue) self.modulus

/-- `ModuloInt.__add__`. -/
def ModuloInt.add (self : ModuloInt) (other : PyOperand) : Except NumError ModuloInt := do
  let o ← self.coerce other
  ModuloInt.make (self.residue + o) self.modulus

/-- `ModuloInt.__radd__` delegates to `__add__`. -/
def ModuloInt.radd (self : ModuloInt) (other : PyOperand) : Except NumError ModuloInt :=
  self.add other

/-- `ModuloInt.__sub__`. -/
def ModuloInt.sub (self : ModuloInt) (other : PyOperand) : Except NumError ModuloInt := do
  let o ← self.coerce other
  ModuloInt.make (self.residue - o) self.modulus

/-- `ModuloInt.__rsub__`. -/
def ModuloInt.rsub (self : ModuloInt) (other : PyOperand) : Except NumError ModuloInt := do
  let o ← self.coerce other
  ModuloInt.make (o - self.residue) self.modulus

/-- `ModuloInt.__mul__`. -/
def ModuloInt.mul (self : ModuloInt) (other : PyOperand) : Except NumError ModuloInt := do
  let o ← self.coerce other
  ModuloInt.make (self.residue * o) self.modulus

/-- `ModuloInt.__floordiv__`: Python `//` raises `ZeroDivisionError` on a zero
operand. -/
def ModuloInt.floordiv (self : ModuloInt) (other : PyOperand) : Except NumError ModuloInt := do
  let o ← self.coerce other
  if o = 0 then .error .zeroDivision
  else ModuloInt.make (pydiv self.residue o) self.modulus

/-- `ModuloInt.__mod__`: Python `%` raises `ZeroDivisionError` on a zero
operand. -/
def ModuloInt.modOp (self : ModuloInt) (other : PyOperand) : Except NumError ModuloInt := do
  let o ← self.coerce other
  if o = 0 then .error .zeroDivision
  else ModuloInt.make (pymod self.residue o) self.modulus

/-! The next two facts (the Python `%` result is strictly smaller than the
divisor in absolute value) support the termination measure of the extended
Euclidean loop below; they must precede its definition. -/

theorem fmod_bounds_of_neg (a : ℤ) {b : ℤ} (hb : b < 0) :
    b < Int.fmod a b ∧ Int.fmod a b ≤ 0 := by
  match a, b, hb with
  | .ofNat m, .negSucc n, _ =>
      match m with
      | 0 =>
          simp only [Int.fmod, Int.negSucc_eq]
          omega
      | .succ m =>
          show Int.negSucc n < Int.subNatNat (m % n.succ) n ∧
            Int.subNatNat (m % n.succ) n ≤ 0
          rw [Int.subNatNat_eq_coe]
          have h1 : m % n.succ < n.succ := Nat.mod_lt _ (Nat.succ_pos n)
          simp only [Int.negSucc_eq]
          omega
  | .negSucc m, .negSucc n, _ =>
      show Int.negSucc n < -(Int.ofNat (m.succ % n.succ)) ∧
        -(Int.ofNat (m.succ % n.succ)) ≤ 0
      have h1 : m.succ % n.succ < n.succ := Nat.mod_lt _ (Nat.succ_pos n)
      simp only [Int.negSucc_eq, Int.ofNat_eq_coe]
      omega

theorem natAbs_fmod_lt (a : ℤ) {b : ℤ} (hb : b ≠ 0) :
    (Int.fmod a b).natAbs < b.natAbs := by
  rcases lt_trichotomy b 0 with hneg | hzero | hpos
  · have h := fmod_bounds_of_neg a hneg
    omega
  · exact absurd hzero hb
  · have h1 := Int.fmod_nonneg' a hpos
    have h2 := Int.fmod_lt_of_pos a hpos
    omega

/-- One pass of the extended Euclidean loop of `ModuloInt.inverse`:
`(t, new_t) = (0, 1)`, `(r, new_r) = (n, a)` initially; while `new_r != 0`,
`q = r // new_r` and both pairs are shifted. Returns the final `(t, r)`. -/
def egcd (t new_t r new_r : ℤ) : ℤ × ℤ :=
  if new_r = 0 then (t, r)
  else
    egcd new_t (t - pydiv r new_r * new_t) new_r (r - pydiv r new_r * new_r)
termination_by new_r.natAbs
decreasing_by
  rename_i h
  have hsub : r - pydiv r new_r * new_r = Int.fmod r new_r := by
    have h := Int.fmod_add_fdiv r new_r
    simp only [pydiv]
    linarith [mul_comm new_r (Int.fdiv r new_r)]
  rw [hsub]
  exact natAbs_fmod_lt r h

/-- `ModuloInt.inverse`: raises `ValueError` (NotInvertible) when
`gcd(int(self), modulus) != 1`; otherwise runs the extended Euclidean loop
starting from `(t, new_t) = (0, 1)`, `(r, new_r) = (modulus, int(self))` and
returns `ModuloInt(t, modulus)`. -/
def ModuloInt.inverse (self : ModuloInt) : Except NumError ModuloInt :=
  if Int.gcd self.residue self.modulus ≠ 1 then .error .notInvertible
  else
    ModuloInt.make (egcd 0 1 self.modulus self.residue).1 self.modulus

/-- Python's built-in three-argument `pow(a, e, m)` (a language primitive, not
repository code): for `e >= 0` it is `a ** e mod m` with the sign of `m`;
for `e < 0` it requires `gcd(a, m) == 1` (else `ValueError`, i.e.
NotInvertible) and raises the modular inverse of `a` to `-e`; `m == 0` is
rejected. -/
def pyPowMod (a e m : ℤ) : Except NumError ℤ :=
  if m = 0 then .error .usageError
  else if 0 ≤ e then .ok (pymod (a ^ e.toNat) m)
  else if Int.gcd a m ≠ 1 then .error .notInvertible
  else .ok (pymod ((pymod (egcd 0 1 m (pymod a m)).1 m) ^ (-e).toNat) m)

/-- `ModuloInt.__pow__(other, modulo)`: a non-`None` external `modulo` is a
usage error; otherwise the coerced exponent is fed to the built-in
`pow(int(self), o, self.modulus)` and the result is re-wrapped. -/
def ModuloInt.powOp (self : ModuloInt) (other : PyOperand) (modulo : Option ℤ) :
    Except NumError ModuloInt :=
  match modulo with
  | some _ => .error .usageError
  | none => do
      let o ← self.coerce other
      let p ← pyPowMod self.residue o self.modulus
      ModuloInt.make p self.modulus

/-! ### `modulo_int.py`: `modulo_range` -/

/-- `Direction` enum (`INCREASING`/`INCREASE` and `DECREASING`/`DECREASE`
are aliases, so two constructors suffice). -/
inductive Direction
  | increasing
  | decreasing
deriving DecidableEq, Repr

/-- The `max_range_amount` argument of `modulo_range`. The source also accepts
`ModuloRangeMode.INFINITE` (an unbounded generator), which has no finite-list
denotation and is outside this embedding; the claims under verification
concern the `DETECT` and explicit-count modes. -/
inductive MaxRangeAmount
  | detect
  | amount (n : ℤ)
deriving DecidableEq, Repr

/-- The `while current != stop_mod and count < max_iter` loop of
`modulo_range`, with the remaining iteration budget as fuel. Each step yields
`current` and replaces it by `ModuloInt(int(current) + step, modulus)`
(whose payload is `(current + step) mod modulus`). The `!=` on `ModuloInt`
is inherited `int` equality, i.e. payload equality. -/
def modulo_range_loop (stopRes step modulus : ℤ) : ℤ → Nat → List ModuloInt
  | _, 0 => []
  | cur, fuel + 1 =>
      if cur = stopRes then []
      else ⟨cur, modulus⟩ ::
        modulo_range_loop stopRes step modulus (pymod (cur + step) modulus) fuel

/-- `modulo_range(start, stop, step, modulus, direction, max_range_amount)`:
rejects `step <= 0` (InvalidStep), normalizes `start`/`stop` through the
`ModuloInt` constructor, resolves the cap (`DETECT` →
`modulus // gcd(modulus, step) + 1`; explicit amount → itself, rejected as
InvalidAmount when `<= 0`), applies the direction sign to `abs(step)`, and
runs the iteration loop. -/
def modulo_range (start stop step modulus : ℤ) (direction : Direction)
    (max_range_amount : MaxRangeAmount) : Except NumError (List ModuloInt) :=
  if step ≤ 0 then .error .invalidStep
  else do
    let start_mod ← ModuloInt.make start modulus
    let stop_mod ← ModuloInt.make stop modulus
    let max_iter : ℤ ←
      match max_range_amount with
      | .detect => .ok (pydiv modulus (Int.gcd modulus step) + 1)
      | .amount n => if n ≤ 0 then .error .invalidAmount else .ok n
    let signed_step : ℤ :=
      match direction with
      | .increasing => |step|
      | .decreasing => -|step|
    .ok (modulo_range_loop stop_mod.residue signed_step modulus
          start_mod.residue max_iter.toNat)

/-! ### `bounded.py`: the generated `BoundedInt` classes -/

/-- `BoundType` enum. -/
inductive BoundType
  | clamp
  | cyclic
  | bounce
  | modulo
deriving DecidableEq, Repr

/-- `_apply_bound`: dispatches to the strategy function; the `MODULO` tag is
rejected (`ValueError("Invalid BoundType")`, a usage error — the factory
never routes `MODULO` here, it returns the `ModuloInt` class instead). -/
def apply_bound (bound_type : BoundType) (value min_value max_value : ℤ) :
    Except NumError ℤ :=
  match bound_type with
  | .clamp => .ok (clamp value min_value max_value)
  | .cyclic => cyclic_wrap value min_value max_value
  | .bounce => bounce value min_value max_value
  | .modulo => .error .usageError

/-- A value of one of the generated `BoundedInt` classes: the integer payload
plus the `min_value`/`max_value` attributes; `bt` records which generated
class (bounding strategy) the value belongs to. -/
structure BoundedInt where
  val : ℤ
  bt : BoundType
  min_value : ℤ
  max_value : ℤ
deriving DecidableEq, Repr

/-- `BoundedInt.__new__`: applies the class's bounding strategy to the raw
value and stores the bounds. -/
def BoundedInt.make (bt : BoundType) (value min_value max_value : ℤ) :
    Except NumError BoundedInt := do
  let b ← apply_bound bt value min_value max_value
  .ok ⟨b, bt, min_value, max_value⟩

/-- `BoundedInt._bounded`: `type(self)(value, self.min_value, self.max_value)`. -/
def BoundedInt.bounded (self : BoundedInt) (value : ℤ) : Except NumError BoundedInt :=
  BoundedInt.make self.bt value self.min_value self.max_value

/-- `BoundedInt.__add__` with a plain-integer right operand:
`self._bounded(int(self) + other)`, where `int(self) + other` is plain
integer addition. (A `BoundedInt` right operand dispatches differently —
see `BoundedInt.addBounded`.) -/
def BoundedInt.add (self : BoundedInt) (other : ℤ) : Except NumError BoundedInt :=
  self.bounded (self.val + other)

/-- `BoundedInt.__radd__` delegates to `__add__`. -/
def BoundedInt.radd (self : BoundedInt) (other : ℤ) : Except NumError BoundedInt :=
  self.add other

/-- `BoundedInt.__sub__`: `self._bounded(int(self) - other)`. A `BoundedInt`
right operand contributes only its payload: the generated class defines no
`__rsub__`, so `int(self) - other` falls back to the inherited `int`
reflected slot and yields the plain integer difference. -/
def BoundedInt.sub (self : BoundedInt) (other : ℤ) : Except NumError BoundedInt :=
  self.bounded (self.val - other)

/-- `BoundedInt.__mul__`: `self._bounded(int(self) * other)`. As with `-`,
no `__rmul__` is defined, so a `BoundedInt` right operand contributes only
its plain integer payload. -/
def BoundedInt.mul (self : BoundedInt) (other : ℤ) : Except NumError BoundedInt :=
  self.bounded (self.val * other)

/-- The construction precondition named by the claims: `min <= max` for Clamp
and CyclicWrap, `min < max` for Bounce (the Modulo tag is routed to
`ModuloInt`, not to `_apply_bound`). -/
def ValidBounds : BoundType → ℤ → ℤ → Prop
  | .clamp, mn, mx => mn ≤ mx
  | .cyclic, mn, mx => mn ≤ mx
  | .bounce, mn, mx => mn < mx
  | .modulo, _, _ => False

/-! ### `unit_float.py` (floats modelled as `ℚ`) -/

/-- `UnitFloat.__new__`: clamps into `[0, 1]` only when the input is out of
range (construct-time-only semantics); returns the stored payload. -/
def UnitFloat.make (value : ℚ) : ℚ :=
  if 0 ≤ value ∧ value ≤ 1 then value else clamp01 value

/-- A value of the auto-clamping `EnforcedUnitFloat` class (payload only;
the class carries no other state). -/
structure EnforcedUnitFloat where
  val : ℚ
deriving DecidableEq, Repr

/-- Constructing `EnforcedUnitFloat(value)` runs `UnitFloat.__new__`. -/
def EnforcedUnitFloat.make (value : ℚ) : EnforcedUnitFloat :=
  ⟨UnitFloat.make value⟩

/-- `EnforcedUnitFloat._wrap`: `EnforcedUnitFloat(_clamp01(float(value)))`. -/
def EnforcedUnitFloat.wrap (value : ℚ) : EnforcedUnitFloat :=
  EnforcedUnitFloat.make (clamp01 value)

/-- `EnforcedUnitFloat.__add__` (the coerced operand is a plain number). -/
def EnforcedUnitFloat.add (self : EnforcedUnitFloat) (other : ℚ) : EnforcedUnitFloat :=
  .wrap (self.val + other)

/-- `EnforcedUnitFloat.__radd__ = __add__`. -/
def EnforcedUnitFloat.radd (self : EnforcedUnitFloat) (other : ℚ) : EnforcedUnitFloat :=
  self.add other

/-- `EnforcedUnitFloat.__sub__`. -/
def EnforcedUnitFloat.sub (self : EnforcedUnitFloat) (other : ℚ) : EnforcedUnitFloat :=
  .wrap (self.val - other)

/-- `EnforcedUnitFloat.__rsub__`. -/
def EnforcedUnitFloat.rsub (self : EnforcedUnitFloat) (other : ℚ) : EnforcedUnitFloat :=
  .wrap (other - self.val)

/-- `EnforcedUnitFloat.__mul__`. -/
def EnforcedUnitFloat.mul (self : EnforcedUnitFloat) (other : ℚ) : EnforcedUnitFloat :=
  .wrap (self.val * other)

/-- `EnforcedUnitFloat.__rmul__ = __mul__`. -/
def EnforcedUnitFloat.rmul (self : EnforcedUnitFloat) (other : ℚ) : EnforcedUnitFloat :=
  self.mul other

/-- `EnforcedUnitFloat.__truediv__`: float `/` raises `ZeroDivisionError` on a
zero divisor, otherwise the raw quotient is wrapped. -/
def EnforcedUnitFloat.div (self : EnforcedUnitFloat) (other : ℚ) :
    Except NumError EnforcedUnitFloat :=
  if other = 0 then .error .zeroDivision else .ok (.wrap (self.val / other))

/-- `EnforcedUnitFloat.__rtruediv__`. -/
def EnforcedUnitFloat.rdiv (self : EnforcedUnitFloat) (other : ℚ) :
    Except NumError EnforcedUnitFloat :=
  if self.val = 0 then .error .zeroDivision else .ok (.wrap (other / self.val))

/-- `EnforcedUnitFloat.__pow__`, modelled at integer exponents (a float-valued
exponent has no exact `ℚ` denotation): `0.0 ** e` with `e < 0` raises
`ZeroDivisionError`; otherwise the raw power is wrapped. -/
def EnforcedUnitFloat.powInt (self : EnforcedUnitFloat) (other : ℤ) :
    Except NumError EnforcedUnitFloat :=
  if self.val = 0 ∧ other < 0 then .error .zeroDivision
  else .ok (.wrap (self.val ^ other))

/-- `EnforcedUnitFloat` defines no `__rpow__`, so `base ** x` with an
`EnforcedUnitFloat` right operand falls back to the inherited
`float.__rpow__`: the result is the plain raw power — no clamping and no
`EnforcedUnitFloat` wrapping. Modelled (like `__pow__`) at integer values
`e` of the right operand's payload; `0.0 ** e` with `e < 0` raises
`ZeroDivisionError`. -/
def float_rpow (base : ℚ) (e : ℤ) : Except NumError ℚ :=
  if base = 0 ∧ e < 0 then .error .zeroDivision
  else .ok (base ^ e)

/-! ### Helper lemmas -/

theorem pymod_eq_emod (a : ℤ) {b : ℤ} (hb : 0 ≤ b) : pymod a b = a % b :=
  Int.fmod_eq_emod a hb

theorem pymod_nonneg (a : ℤ) {b : ℤ} (hb : 0 < b) : 0 ≤ pymod a b :=
  Int.fmod_nonneg' a hb

theorem pymod_lt_of_pos (a : ℤ) {b : ℤ} (hb : 0 < b) : pymod a b < b :=
  Int.fmod_lt_of_pos a hb

theorem egcd_of_zero (t nt r : ℤ) : egcd t nt r 0 = (t, r) := by
  rw [egcd]
  simp

theorem egcd_of_ne (t nt r nr : ℤ) (h : nr ≠ 0) :
    egcd t nt r nr = egcd nt (t - pydiv r nr * nt) nr (r - pydiv r nr * nr) := by
  rw [egcd]
  simp [h]


theorem except_bind_ok {ε α β : Type} {e : Except ε α} {f : α → Except ε β} {b : β}
    (h : (e >>= f) = .ok b) : ∃ a, e = .ok a ∧ f a = .ok b := by
  cases e with
  | error err => simp [Bind.bind, Except.bind] at h
  | ok a => exact ⟨a, rfl, by simpa [Bind.bind, Except.bind] using h⟩

theorem ModuloInt.make_ok {v m : ℤ} {r : ModuloInt} (h : ModuloInt.make v m = .ok r) :
    r.modulus = m ∧ 0 ≤ r.residue ∧ r.residue < m ∧ r.residue = pymod v m ∧ 0 < m := by
  rw [ModuloInt.make] at h
  split at h
  · cases h
  · rename_i hm
    cases h
    have hmpos : 0 < m := by omega
    exact ⟨rfl, pymod_nonneg v hmpos, pymod_lt_of_pos v hmpos, rfl, hmpos⟩

theorem ModuloInt.make_of_pos (v : ℤ) {m : ℤ} (hm : 0 < m) :
    ModuloInt.make v m = .ok ⟨pymod v m, m⟩ := by
  rw [ModuloInt.make]
  split
  · omega
  · rfl

/-- C1: for every integer `v` and modulus `m > 0`, `ModuloInt(v, m)` stores the
residue `v mod m` normalized into `[0, m)` (non-negative even for negative
`v`); construction with `modulus <= 0` fails with InvalidModulus; and every
operation among `+`, `-`, `*`, `//`, `%`, `**`, `opposite()` and `inverse()`
that returns a value returns a `ModuloInt` whose residue lies in
`[0, modulus)` and whose modulus is unchanged. -/
theorem C1_moduloInt_closure :
    (∀ v m : ℤ, 0 < m →
        ModuloInt.make v m = .ok ⟨pymod v m, m⟩ ∧ 0 ≤ pymod v m ∧ pymod v m < m) ∧
    (∀ v m : ℤ, m ≤ 0 → ModuloInt.make v m = .error .invalidModulus) ∧
    (∀ (x : ModuloInt) (o : PyOperand) (r : ModuloInt),
        (x.add o = .ok r ∨ x.sub o = .ok r ∨ x.mul o = .ok r ∨
         x.floordiv o = .ok r ∨ x.modOp o = .ok r ∨ x.powOp o none = .ok r ∨
         x.opposite = .ok r ∨ x.inverse = .ok r) →
        0 ≤ r.residue ∧ r.residue < x.modulus ∧ r.modulus = x.modulus) := by
  refine ⟨?_, ?_, ?_⟩
  · intro v m hm
    exact ⟨ModuloInt.make_of_pos v hm, pymod_nonneg v hm, pymod_lt_of_pos v hm⟩
  · intro v m hm
    rw [ModuloInt.make]
    split
    · rfl
    · omega
  · intro x o r hop
    have finish : ∀ {w : ℤ}, ModuloInt.make w x.modulus = .ok r →
        0 ≤ r.residue ∧ r.residue < x.modulus ∧ r.modulus = x.modulus := by
      intro w h
      obtain ⟨h1, h2, h3, _, _⟩ := ModuloInt.make_ok h
      exact ⟨h2, h3, h1⟩
    rcases hop with h | h | h | h | h | h | h | h
    · rw [ModuloInt.add] at h
      obtain ⟨a, _, h2⟩ := except_bind_ok h
      exact finish h2
    · rw [ModuloInt.sub] at h
      obtain ⟨a, _, h2⟩ := except_bind_ok h
      exact finish h2
    · rw [ModuloInt.mul] at h
      obtain ⟨a, _, h2⟩ := except_bind_ok h
      exact finish h2
    · rw [ModuloInt.floordiv] at h
      obtain ⟨a, _, h2⟩ := except_bind_ok h
      split at h2
      · cases h2
      · exact finish h2
    · rw [ModuloInt.modOp] at h
      obtain ⟨a, _, h2⟩ := except_bind_ok h
      split at h2
      · cases h2
      · exact finish h2
    · rw [ModuloInt.powOp] at h
      obtain ⟨a, _, h2⟩ := except_bind_ok h
      obtain ⟨p, _, h3⟩ := except_bind_ok h2
      exact finish h3
    · rw [ModuloInt.opposite] at h
      exact finish h
    · rw [ModuloInt.inverse] at h
      split at h
      · cases h
      · exact finish h

/-- C1 witness: concrete instantiations — a negative value is normalized into
`[0, 3)`, a non-positive modulus is rejected, and a subtraction result stays
normalized. -/
theorem C1_witness :
    (ModuloInt.make (-7) 3 = .ok ⟨pymod (-7) 3, 3⟩ ∧
      0 ≤ pymod (-7) 3 ∧ pymod (-7) 3 < 3) ∧
    ModuloInt.make 5 0 = .error .invalidModulus ∧
    (0 ≤ (ModuloInt.mk 2 4).residue ∧ (ModuloInt.mk 2 4).residue < 4 ∧
      (ModuloInt.mk 2 4).modulus = 4) :=
  ⟨C1_moduloInt_closure.1 (-7) 3 (by norm_num),
   C1_moduloInt_closure.2.1 5 0 (by norm_num),
   C1_moduloInt_closure.2.2 ⟨1, 4⟩ (.int 5) ⟨2, 4⟩ (Or.inl (by decide))⟩

theorem pymod_self_of_lt {a b : ℤ} (h0 : 0 ≤ a) (h1 : a < b) : pymod a b = a :=
  Int.fmod_eq_of_lt h0 h1

theorem clamp_mem (v : ℤ) {mn mx : ℤ} (h : mn ≤ mx) :
    mn ≤ clamp v mn mx ∧ clamp v mn mx ≤ mx :=
  ⟨le_max_right _ _, max_le (min_le_right v mx) h⟩

theorem cyclic_wrap_of_le (v : ℤ) {mn mx : ℤ} (h : mn ≤ mx) :
    cyclic_wrap v mn mx = .ok (pymod (v - mn) (mx - mn + 1) + mn) ∧
    mn ≤ pymod (v - mn) (mx - mn + 1) + mn ∧
    pymod (v - mn) (mx - mn + 1) + mn ≤ mx := by
  have hs : 0 < mx - mn + 1 := by omega
  have h1 := pymod_nonneg (v - mn) hs
  have h2 := pymod_lt_of_pos (v - mn) hs
  refine ⟨?_, by omega, by omega⟩
  simp only [cyclic_wrap]
  rw [if_neg (by omega)]

theorem bounce_of_lt (v : ℤ) {mn mx : ℤ} (h : mn < mx) :
    ∃ w, bounce v mn mx = .ok w ∧ mn ≤ w ∧ w ≤ mx := by
  have h2r : 0 < 2 * (mx - mn) := by omega
  have h1 := pymod_nonneg (v - mn) h2r
  have h2 := pymod_lt_of_pos (v - mn) h2r
  simp only [bounce]
  rw [if_neg (by omega)]
  split
  · rename_i hgt
    exact ⟨_, rfl, by omega, by omega⟩
  · rename_i hle
    exact ⟨_, rfl, by omega, by omega⟩

theorem apply_bound_mem (bt : BoundType) (v mn mx : ℤ) (hv : ValidBounds bt mn mx) :
    ∃ w, apply_bound bt v mn mx = .ok w ∧ mn ≤ w ∧ w ≤ mx := by
  cases bt with
  | clamp =>
      obtain ⟨h1, h2⟩ := clamp_mem v (hv : mn ≤ mx)
      exact ⟨clamp v mn mx, rfl, h1, h2⟩
  | cyclic =>
      obtain ⟨h1, h2, h3⟩ := cyclic_wrap_of_le v (hv : mn ≤ mx)
      exact ⟨_, h1, h2, h3⟩
  | bounce =>
      obtain ⟨w, h1, h2, h3⟩ := bounce_of_lt v (hv : mn < mx)
      exact ⟨w, h1, h2, h3⟩
  | modulo => exact absurd hv (fun hf => hf)

theorem BoundedInt.make_mem (bt : BoundType) (v mn mx : ℤ)
    (hv : ValidBounds bt mn mx) :
    ∃ b, BoundedInt.make bt v mn mx = .ok b ∧ b.bt = bt ∧ b.min_value = mn ∧
      b.max_value = mx ∧ mn ≤ b.val ∧ b.val ≤ mx := by
  obtain ⟨w, hw, h1, h2⟩ := apply_bound_mem bt v mn mx hv
  refine ⟨⟨w, bt, mn, mx⟩, ?_, rfl, rfl, rfl, h1, h2⟩
  rw [BoundedInt.make, hw]
  rfl

/-- C2: for every Clamp/CyclicWrap/Bounce bounded integer constructed with
valid bounds (`min <= max`, strictly for Bounce), the stored payload lies in
`[min, max]`, and each of `+`, `-`, `*` with an integer operand returns a new
value of the same class whose payload again lies in `[min, max]` and whose
`min_value`/`max_value` equal those of the left operand (the model is purely
functional: no operand is ever mutated). -/
theorem C2_boundedInt_invariants (bt : BoundType) (v mn mx : ℤ)
    (hv : ValidBounds bt mn mx) :
    ∃ b : BoundedInt, BoundedInt.make bt v mn mx = .ok b ∧
      b.bt = bt ∧ b.min_value = mn ∧ b.max_value = mx ∧
      mn ≤ b.val ∧ b.val ≤ mx ∧
      ∀ other : ℤ,
        (∃ r, b.add other = .ok r ∧ r.bt = bt ∧ r.min_value = mn ∧
            r.max_value = mx ∧ mn ≤ r.val ∧ r.val ≤ mx) ∧
        (∃ r, b.sub other = .ok r ∧ r.bt = bt ∧ r.min_value = mn ∧
            r.max_value = mx ∧ mn ≤ r.val ∧ r.val ≤ mx) ∧
        (∃ r, b.mul other = .ok r ∧ r.bt = bt ∧ r.min_value = mn ∧
            r.max_value = mx ∧ mn ≤ r.val ∧ r.val ≤ mx) := by
  obtain ⟨b, hb, hbt, hmn, hmx, hlo, hhi⟩ := BoundedInt.make_mem bt v mn mx hv
  refine ⟨b, hb, hbt, hmn, hmx, hlo, hhi, ?_⟩
  intro other
  have hvb : ValidBounds b.bt b.min_value b.max_value := by
    rw [hbt, hmn, hmx]; exact hv
  refine ⟨?_, ?_, ?_⟩
  · obtain ⟨r, hr, h1, h2, h3, h4, h5⟩ :=
      BoundedInt.make_mem b.bt (b.val + other) b.min_value b.max_value hvb
    exact ⟨r, hr, h1.trans hbt, h2.trans hmn, h3.trans hmx, by omega, by omega⟩
  · obtain ⟨r, hr, h1, h2, h3, h4, h5⟩ :=
      BoundedInt.make_mem b.bt (b.val - other) b.min_value b.max_value hvb
    exact ⟨r, hr, h1.trans hbt, h2.trans hmn, h3.trans hmx, by omega, by omega⟩
  · obtain ⟨r, hr, h1, h2, h3, h4, h5⟩ :=
      BoundedInt.make_mem b.bt (b.val * other) b.min_value b.max_value hvb
    exact ⟨r, hr, h1.trans hbt, h2.trans hmn, h3.trans hmx, by omega, by omega⟩

/-- C2 witness: the CyclicWrap class at bounds `(0, 10)` with value `15` and a
subsequent addition. -/
theorem C2_witness :
    ∃ b : BoundedInt, BoundedInt.make .cyclic 15 0 10 = .ok b ∧
      b.bt = .cyclic ∧ b.min_value = 0 ∧ b.max_value = 10 ∧
      0 ≤ b.val ∧ b.val ≤ 10 ∧
      ∀ other : ℤ,
        (∃ r, b.add other = .ok r ∧ r.bt = .cyclic ∧ r.min_value = 0 ∧
            r.max_value = 10 ∧ 0 ≤ r.val ∧ r.val ≤ 10) ∧
        (∃ r, b.sub other = .ok r ∧ r.bt = .cyclic ∧ r.min_value = 0 ∧
            r.max_value = 10 ∧ 0 ≤ r.val ∧ r.val ≤ 10) ∧
        (∃ r, b.mul other = .ok r ∧ r.bt = .cyclic ∧ r.min_value = 0 ∧
            r.max_value = 10 ∧ 0 ≤ r.val ∧ r.val ≤ 10) :=
  C2_boundedInt_invariants .cyclic 15 0 10 (show (0:ℤ) ≤ 10 by norm_num)

/-- C7: constructing with value `15` and bounds `(0, 10)` yields payload `10`
under Clamp, `4` under CyclicWrap (`15 mod 11 = 4`), and `5` under Bounce
(`range = 10`, `offset = 15 mod 20 = 15 > 10`, so `10 - (15 - 10) = 5`). -/
theorem C7_scenarios :
    BoundedInt.make .clamp 15 0 10 = .ok ⟨10, .clamp, 0, 10⟩ ∧
    BoundedInt.make .cyclic 15 0 10 = .ok ⟨4, .cyclic, 0, 10⟩ ∧
    BoundedInt.make .bounce 15 0 10 = .ok ⟨5, .bounce, 0, 10⟩ := by
  refine ⟨by decide, by decide, by decide⟩

/-- C8: `bounce` fails with InvalidRange whenever `max - min <= 0`, and hence
constructing a Bounce-strategy bounded value with `min == max` fails with
InvalidRange for every input value. -/
theorem C8_bounce_invalid_range :
    (∀ v mn mx : ℤ, mx - mn ≤ 0 → bounce v mn mx = .error .invalidRange) ∧
    (∀ v mn : ℤ, BoundedInt.make .bounce v mn mn = .error .invalidRange) := by
  have hbounce : ∀ v mn mx : ℤ, mx - mn ≤ 0 → bounce v mn mx = .error .invalidRange := by
    intro v mn mx h
    simp only [bounce]
    rw [if_pos h]
  refine ⟨hbounce, ?_⟩
  intro v mn
  rw [BoundedInt.make]
  rw [show apply_bound .bounce v mn mn = bounce v mn mn from rfl]
  rw [hbounce v mn mn (by omega)]
  rfl

/-- C8 witness: `bounce(7, 2, 2)` and the Bounce construction at `min == max`. -/
theorem C8_witness :
    bounce 7 2 2 = .error .invalidRange ∧
    BoundedInt.make .bounce 7 2 2 = .error .invalidRange :=
  ⟨C8_bounce_invalid_range.1 7 2 2 (by norm_num), C8_bounce_invalid_range.2 7 2⟩

/-- C9: for `min < max`, `cyclic_wrap(v, min, max)` lies in `[min, max]` and a
second application fixes the result: wrapping is idempotent after the first
application. -/
theorem C9_cyclic_wrap_idempotent (v mn mx : ℤ) (h : mn < mx) :
    ∃ w, cyclic_wrap v mn mx = .ok w ∧ mn ≤ w ∧ w ≤ mx ∧
      cyclic_wrap w mn mx = .ok w := by
  have hle : mn ≤ mx := le_of_lt h
  have hs : 0 < mx - mn + 1 := by omega
  obtain ⟨h1, h2, h3⟩ := cyclic_wrap_of_le v hle
  refine ⟨_, h1, h2, h3, ?_⟩
  obtain ⟨h1', _, _⟩ := cyclic_wrap_of_le (pymod (v - mn) (mx - mn + 1) + mn) hle
  rw [h1']
  have hsub : pymod (v - mn) (mx - mn + 1) + mn - mn = pymod (v - mn) (mx - mn + 1) := by
    ring
  rw [hsub, pymod_self_of_lt (pymod_nonneg (v - mn) hs) (pymod_lt_of_pos (v - mn) hs)]

/-- C9 witness: wrapping `23` into `[0, 9]`. -/
theorem C9_witness :
    ∃ w, cyclic_wrap 23 0 9 = .ok w ∧ 0 ≤ w ∧ w ≤ 9 ∧
      cyclic_wrap w 0 9 = .ok w :=
  C9_cyclic_wrap_idempotent 23 0 9 (by norm_num)

theorem modulo_range_loop_length_le (sR st m c : ℤ) (f : Nat) :
    (modulo_range_loop sR st m c f).length ≤ f := by
  induction f generalizing c with
  | zero => simp [modulo_range_loop]
  | succ n ih =>
      rw [modulo_range_loop]
      split
      · simp
      · simpa using ih (pymod (c + st) m)

theorem modulo_range_loop_self (sR st m : ℤ) (f : Nat) :
    modulo_range_loop sR st m sR f = [] := by
  cases f with
  | zero => rfl
  | succ n => rw [modulo_range_loop, if_pos rfl]

/-- C5: for `modulus > 0` and `step > 0`, `modulo_range` in Detect cap mode
returns a finite sequence of at most `modulus // gcd(modulus, step) + 1`
`ModuloInt` values, and whenever `start mod modulus == stop mod modulus` it
returns zero elements (an empty sequence, not an error). -/
theorem C5_modulo_range_detect (start stop step m : ℤ) (d : Direction)
    (hm : 0 < m) (hstep : 0 < step) :
    ∃ l : List ModuloInt, modulo_range start stop step m d .detect = .ok l ∧
      (l.length : ℤ) ≤ pydiv m (Int.gcd m step) + 1 ∧
      (pymod start m = pymod stop m → l = []) := by
  rw [modulo_range.eq_def, if_neg (by omega)]
  simp only [ModuloInt.make_of_pos start hm, ModuloInt.make_of_pos stop hm,
    Bind.bind, Except.bind]
  refine ⟨_, rfl, ?_, ?_⟩
  · have hl := modulo_range_loop_length_le (pymod stop m)
      (match d with | .increasing => |step| | .decreasing => -|step|) m
      (pymod start m) (pydiv m (Int.gcd m step) + 1).toNat
    have hcap : 0 ≤ pydiv m (Int.gcd m step) :=
      Int.fdiv_nonneg (le_of_lt hm) (Int.natCast_nonneg _)
    omega
  · intro heq
    rw [heq]
    exact modulo_range_loop_self _ _ _ _

/-- C5 witness: `modulo_range(0, 0, 3, 10, Detect)` — `start == stop` — is
empty and within the cap. -/
theorem C5_witness :
    ∃ l : List ModuloInt, modulo_range 0 0 3 10 .increasing .detect = .ok l ∧
      (l.length : ℤ) ≤ pydiv 10 (Int.gcd 10 3) + 1 ∧
      (pymod 0 10 = pymod 0 10 → l = []) :=
  C5_modulo_range_detect 0 0 3 10 .increasing (by norm_num) (by norm_num)

theorem clamp01_mem (v : ℚ) : 0 ≤ clamp01 v ∧ clamp01 v ≤ 1 :=
  ⟨le_max_right _ _, max_le (min_le_right v 1) zero_le_one⟩

theorem UnitFloat.make_of_mem {v : ℚ} (h : 0 ≤ v ∧ v ≤ 1) : UnitFloat.make v = v := by
  rw [UnitFloat.make, if_pos h]

theorem EnforcedUnitFloat.wrap_mem (v : ℚ) :
    0 ≤ (EnforcedUnitFloat.wrap v).val ∧ (EnforcedUnitFloat.wrap v).val ≤ 1 := by
  rw [EnforcedUnitFloat.wrap, EnforcedUnitFloat.make,
    UnitFloat.make_of_mem (clamp01_mem v)]
  exact clamp01_mem v

/-- C4 (amended): every operation the auto-clamping unit float itself defines
(`+`, `-`, `*`, `/`, `**` — the power modelled at integer exponents — and
the right-hand forms `__radd__`, `__rsub__`, `__rmul__`, `__rtruediv__`)
that returns a value returns a value in `[0, 1]`, the raw result having
been clamped, and `EnforcedUnitFloat(0.9) + 0.5` (the coerced right operand
of `EnforcedUnitFloat(0.5)`) equals `EnforcedUnitFloat(1.0)`, not `1.4`;
the right-hand power form is the exception: no `__rpow__` is defined, so
`base ** EnforcedUnitFloat(e)` falls back to `float.__rpow__` and returns
the raw power unclamped. -/
theorem C4_enforced_unit_float (x : EnforcedUnitFloat) (o : ℚ) (e : ℤ) :
    (0 ≤ (x.add o).val ∧ (x.add o).val ≤ 1) ∧
    (0 ≤ (x.radd o).val ∧ (x.radd o).val ≤ 1) ∧
    (0 ≤ (x.sub o).val ∧ (x.sub o).val ≤ 1) ∧
    (0 ≤ (x.rsub o).val ∧ (x.rsub o).val ≤ 1) ∧
    (0 ≤ (x.mul o).val ∧ (x.mul o).val ≤ 1) ∧
    (0 ≤ (x.rmul o).val ∧ (x.rmul o).val ≤ 1) ∧
    (∀ r, x.div o = .ok r → 0 ≤ r.val ∧ r.val ≤ 1) ∧
    (∀ r, x.rdiv o = .ok r → 0 ≤ r.val ∧ r.val ≤ 1) ∧
    (∀ r, x.powInt e = .ok r → 0 ≤ r.val ∧ r.val ≤ 1) ∧
    (∀ b v : ℚ, float_rpow b e = .ok v → v = b ^ e) ∧
    (EnforcedUnitFloat.make (9/10)).add (1/2) = EnforcedUnitFloat.make 1 := by
  refine ⟨EnforcedUnitFloat.wrap_mem _, EnforcedUnitFloat.wrap_mem _,
    EnforcedUnitFloat.wrap_mem _, EnforcedUnitFloat.wrap_mem _,
    EnforcedUnitFloat.wrap_mem _, EnforcedUnitFloat.wrap_mem _, ?_, ?_, ?_, ?_, ?_⟩
  · intro r h
    rw [EnforcedUnitFloat.div] at h
    split at h
    · cases h
    · cases h
      exact EnforcedUnitFloat.wrap_mem _
  · intro r h
    rw [EnforcedUnitFloat.rdiv] at h
    split at h
    · cases h
    · cases h
      exact EnforcedUnitFloat.wrap_mem _
  · intro r h
    rw [EnforcedUnitFloat.powInt] at h
    split at h
    · cases h
    · cases h
      exact EnforcedUnitFloat.wrap_mem _
  · intro b v h
    rw [float_rpow] at h
    split at h
    · cases h
    · cases h
      rfl
  · norm_num [EnforcedUnitFloat.make, EnforcedUnitFloat.add,
      EnforcedUnitFloat.wrap, UnitFloat.make, clamp01, clamp]

/-- C4 counterexample: the right-hand power form escapes the unit interval —
`EnforcedUnitFloat(1.0)` has payload `1`, and `4 ** EnforcedUnitFloat(1.0)`
falls back to the inherited `float.__rpow__`, returning the plain unclamped
`4.0`, which is not in `[0, 1]`. -/
theorem C4_counterexample :
    (EnforcedUnitFloat.make 1).val = ((1 : ℤ) : ℚ) ∧
    float_rpow 4 1 = .ok 4 ∧ ¬((4 : ℚ) ≤ 1) := by
  refine ⟨?_, ?_, by norm_num⟩
  · norm_num [EnforcedUnitFloat.make, UnitFloat.make]
  · rw [float_rpow, if_neg (by norm_num)]
    norm_num

/-- C4 witness: a concrete addition result stays in `[0, 1]`, and so does a
concrete division result. -/
theorem C4_witness :
    (0 ≤ ((EnforcedUnitFloat.mk (1/2)).add 2).val ∧
      ((EnforcedUnitFloat.mk (1/2)).add 2).val ≤ 1) ∧
    (0 ≤ (EnforcedUnitFloat.wrap (1/2/2)).val ∧
      (EnforcedUnitFloat.wrap (1/2/2)).val ≤ 1) := by
  have h := C4_enforced_unit_float ⟨1/2⟩ 2 (-1)
  refine ⟨h.1, ?_⟩
  refine h.2.2.2.2.2.2.1 (EnforcedUnitFloat.wrap (1/2/2)) ?_
  rw [EnforcedUnitFloat.div, if_neg (by norm_num)]

/-- C6 (amended): if the right operand of a binary operation (`+ - * // %
**`) is a `ModuloInt` with a different modulus, the operation fails with
ModulusMismatch; if the operand has the same modulus or is a plain integer,
the coercion succeeds (no silent coercion across moduli) and `+`, `-`, `*`
produce a value, `//` and `%` produce a value for a non-zero coerced operand
but fail with ZeroDivision when the coerced operand is `0`, and `**`
produces a value for a non-negative exponent. -/
theorem C6_modulus_mismatch (x y : ModuloInt) (o : PyOperand) :
    (y.modulus ≠ x.modulus →
       x.add (.mInt y) = .error .modulusMismatch ∧
       x.sub (.mInt y) = .error .modulusMismatch ∧
       x.mul (.mInt y) = .error .modulusMismatch ∧
       x.floordiv (.mInt y) = .error .modulusMismatch ∧
       x.modOp (.mInt y) = .error .modulusMismatch ∧
       x.powOp (.mInt y) none = .error .modulusMismatch) ∧
    (y.modulus = x.modulus → x.coerce (.mInt y) = .ok y.residue) ∧
    (∀ n : ℤ, x.coerce (.int n) = .ok n) ∧
    (0 < x.modulus → ∀ v : ℤ, x.coerce o = .ok v →
       (∃ r, x.add o = .ok r) ∧ (∃ r, x.sub o = .ok r) ∧
       (∃ r, x.mul o = .ok r) ∧
       (v ≠ 0 → (∃ r, x.floordiv o = .ok r) ∧ (∃ r, x.modOp o = .ok r)) ∧
       (0 ≤ v → ∃ r, x.powOp o none = .ok r)) ∧
    (x.coerce o = .ok 0 →
       x.floordiv o = .error .zeroDivision ∧ x.modOp o = .error .zeroDivision) := by
  refine ⟨?_, ?_, ?_, ?_, ?_⟩
  · intro h
    have hc : x.coerce (.mInt y) = .error .modulusMismatch := by
      simp [ModuloInt.coerce, h]
    refine ⟨?_, ?_, ?_, ?_, ?_, ?_⟩
    · rw [ModuloInt.add, hc]; rfl
    · rw [ModuloInt.sub, hc]; rfl
    · rw [ModuloInt.mul, hc]; rfl
    · rw [ModuloInt.floordiv, hc]; rfl
    · rw [ModuloInt.modOp, hc]; rfl
    · rw [ModuloInt.powOp, hc]; rfl
  · intro h
    simp [ModuloInt.coerce, h]
  · intro n
    rfl
  · intro hm v hco
    have hbind : ∀ {β : Type} (f : ℤ → Except NumError β),
        (x.coerce o >>= f) = f v := by
      intro β f
      rw [hco]
      rfl
    refine ⟨?_, ?_, ?_, ?_, ?_⟩
    · exact ⟨_, by rw [ModuloInt.add, hbind, ModuloInt.make_of_pos _ hm]⟩
    · exact ⟨_, by rw [ModuloInt.sub, hbind, ModuloInt.make_of_pos _ hm]⟩
    · exact ⟨_, by rw [ModuloInt.mul, hbind, ModuloInt.make_of_pos _ hm]⟩
    · intro hv
      constructor
      · exact ⟨_, by
          rw [ModuloInt.floordiv, hbind, if_neg hv, ModuloInt.make_of_pos _ hm]⟩
      · exact ⟨_, by
          rw [ModuloInt.modOp, hbind, if_neg hv, ModuloInt.make_of_pos _ hm]⟩
    · intro hv
      have heq : x.powOp o none =
          .ok ⟨pymod (pymod (x.residue ^ v.toNat) x.modulus) x.modulus, x.modulus⟩ := by
        rw [ModuloInt.powOp]
        rw [hbind]
        rw [pyPowMod, if_neg (by omega), if_pos hv]
        rw [show ((Except.ok (pymod (x.residue ^ v.toNat) x.modulus) : Except NumError ℤ) >>=
          fun p => ModuloInt.make p x.modulus) =
            ModuloInt.make (pymod (x.residue ^ v.toNat) x.modulus) x.modulus from rfl]
        rw [ModuloInt.make_of_pos _ hm]
      exact ⟨_, heq⟩
  · intro hc0
    have hbind0 : ∀ {β : Type} (f : ℤ → Except NumError β),
        (x.coerce o >>= f) = f 0 := by
      intro β f
      rw [hc0]
      rfl
    constructor
    · rw [ModuloInt.floordiv, hbind0, if_pos rfl]
    · rw [ModuloInt.modOp, hbind0, if_pos rfl]

/-- C6 counterexample: the claim promises that with a plain-integer operand
the operation "proceeds and produces a value", but floor division by the
plain integer `0` (same for `%`) produces no value — it raises
`ZeroDivisionError`. -/
theorem C6_counterexample :
    (⟨3, 5⟩ : ModuloInt).floordiv (.int 0) = .error .zeroDivision := by decide

/-- C6 witness: a mismatched addition errors with ModulusMismatch; with a
plain-integer operand `9`, addition, floor division and power on a modulus-5
value produce values; with the plain-integer operand `0`, `//` and `%` fail
with ZeroDivision. -/
theorem C6_witness :
    (⟨1, 5⟩ : ModuloInt).add (.mInt ⟨1, 7⟩) = .error .modulusMismatch ∧
    (∃ r, (⟨2, 5⟩ : ModuloInt).add (.int 9) = .ok r) ∧
    (∃ r, (⟨2, 5⟩ : ModuloInt).floordiv (.int 9) = .ok r) ∧
    (∃ r, (⟨2, 5⟩ : ModuloInt).powOp (.int 9) none = .ok r) ∧
    (⟨2, 5⟩ : ModuloInt).floordiv (.int 0) = .error .zeroDivision ∧
    (⟨2, 5⟩ : ModuloInt).modOp (.int 0) = .error .zeroDivision := by
  have h1 := (C6_modulus_mismatch ⟨1, 5⟩ ⟨1, 7⟩ (.int 9)).1 (by norm_num)
  have h2 := (C6_modulus_mismatch ⟨2, 5⟩ ⟨1, 7⟩ (.int 9)).2.2.2.1 (by norm_num) 9 rfl
  have h3 := (C6_modulus_mismatch ⟨2, 5⟩ ⟨1, 7⟩ (.int 0)).2.2.2.2 rfl
  exact ⟨h1.1, h2.1, (h2.2.2.2.1 (by norm_num)).1, h2.2.2.2.2 (by norm_num),
    h3.1, h3.2⟩

theorem egcd_correct (n aa : ℤ) :
    ∀ (k : ℕ) (t nt r nr : ℤ), nr.natAbs ≤ k → 0 < r → 0 ≤ nr →
      r ≡ t * aa [ZMOD n] → nr ≡ nt * aa [ZMOD n] →
      0 < (egcd t nt r nr).2 ∧
      (egcd t nt r nr).2 ≡ (egcd t nt r nr).1 * aa [ZMOD n] ∧
      (egcd t nt r nr).2.natAbs = Int.gcd r nr := by
  intro k
  induction k with
  | zero =>
      intro t nt r nr hk hr hnr h1 h2
      have h0 : nr = 0 := by omega
      subst h0
      rw [egcd_of_zero]
      exact ⟨hr, h1, (Int.gcd_zero_right r).symm⟩
  | succ k ih =>
      intro t nt r nr hk hr hnr h1 h2
      by_cases h0 : nr = 0
      · subst h0
        rw [egcd_of_zero]
        exact ⟨hr, h1, (Int.gcd_zero_right r).symm⟩
      · have hnrpos : 0 < nr := by omega
        rw [egcd_of_ne _ _ _ _ h0]
        have hq : pydiv r nr = r / nr := Int.fdiv_eq_ediv r (le_of_lt hnrpos)
        have hrem : r - pydiv r nr * nr = r % nr := by
          rw [hq, Int.emod_def]
          ring
        have hrem_nonneg : 0 ≤ r % nr := Int.emod_nonneg r h0
        have hrem_lt : r % nr < nr := Int.emod_lt_of_pos r hnrpos
        have hk' : (r - pydiv r nr * nr).natAbs ≤ k := by
          rw [hrem]
          omega
        have h2' : r - pydiv r nr * nr ≡ (t - pydiv r nr * nt) * aa [ZMOD n] := by
          have hmul : pydiv r nr * nr ≡ pydiv r nr * (nt * aa) [ZMOD n] :=
            h2.mul_left _
          have hstep := h1.sub hmul
          have hring : t * aa - pydiv r nr * (nt * aa) = (t - pydiv r nr * nt) * aa := by
            ring
          rw [hring] at hstep
          exact hstep
        have hmain := ih nt (t - pydiv r nr * nt) nr (r - pydiv r nr * nr) hk'
          hnrpos (by rw [hrem]; exact hrem_nonneg) h2 h2'
        refine ⟨hmain.1, hmain.2.1, ?_⟩
        rw [hmain.2.2, hrem]
        have hrA : ((r.natAbs : ℤ)) = r := Int.natAbs_of_nonneg (le_of_lt hr)
        have hnrA : ((nr.natAbs : ℤ)) = nr := Int.natAbs_of_nonneg (le_of_lt hnrpos)
        have hcast : ((r.natAbs % nr.natAbs : ℕ) : ℤ) = r % nr := by
          push_cast
          rw [abs_of_pos hr, abs_of_pos hnrpos]
        have habs : (r % nr).natAbs = r.natAbs % nr.natAbs := by
          rw [← hcast, Int.natAbs_ofNat]
        rw [Int.gcd_def, Int.gcd_def, habs, Nat.gcd_comm, ← Nat.gcd_rec, Nat.gcd_comm]

/-- C3 (amended): for every integer `a` and modulus `m > 0`,
`ModularInt(a, m).inverse()` fails with NotInvertible exactly when
`gcd(a mod m, m) != 1`; when it succeeds (via the extended Euclidean loop
`egcd`) it returns a `ModularInt` `r` with the same modulus `m`, residue in
`[0, m)`, and `(a * r) mod m == 1 mod m` — which is the claimed
`(a * r) mod m == 1` for every `m > 1`, while at the degenerate modulus
`m = 1` the product is `0`, not `1`. -/
theorem C3_inverse_correct (a m : ℤ) (hm : 0 < m) :
    ModuloInt.make a m = .ok ⟨pymod a m, m⟩ ∧
    ((ModuloInt.mk (pymod a m) m).inverse = .error .notInvertible ↔
      Int.gcd (pymod a m) m ≠ 1) ∧
    ∀ r : ModuloInt, (ModuloInt.mk (pymod a m) m).inverse = .ok r →
      r.modulus = m ∧ 0 ≤ r.residue ∧ r.residue < m ∧
      (a * r.residue) % m = 1 % m := by
  refine ⟨ModuloInt.make_of_pos a hm, ?_, ?_⟩
  · constructor
    · intro h hcop
      rw [ModuloInt.inverse, if_neg (by simpa using hcop)] at h
      rw [ModuloInt.make_of_pos _ hm] at h
      cases h
    · intro hcop
      rw [ModuloInt.inverse, if_pos (by simpa using hcop)]
  · intro r h
    rw [ModuloInt.inverse] at h
    split at h
    · cases h
    · rename_i hcop
      have hcop' : Int.gcd (pymod a m) m = 1 := by
        by_contra hne
        exact hcop (by simpa using hne)
      rw [ModuloInt.make_of_pos _ hm] at h
      cases h
      set aa := pymod a m with haa
      have haann : 0 ≤ aa := pymod_nonneg a hm
      have hmain := egcd_correct m aa aa.natAbs 0 1 m aa (le_refl _) hm haann
        (by show m % m = (0 * aa) % m; simp)
        (by show aa % m = (1 * aa) % m; rw [one_mul])
      set p := egcd 0 1 m aa with hp
      have hone : p.2 = 1 := by
        have hg : p.2.natAbs = Int.gcd m aa := hmain.2.2
        rw [Int.gcd_comm] at hg
        rw [hcop'] at hg
        omega
      have hmod : 1 ≡ p.1 * aa [ZMOD m] := by
        rw [← hone]
        exact hmain.2.1
      refine ⟨rfl, pymod_nonneg _ hm, pymod_lt_of_pos _ hm, ?_⟩
      show (a * pymod p.1 m) % m = 1 % m
      have hath : a ≡ aa [ZMOD m] := by
        show a % m = aa % m
        rw [haa, pymod_eq_emod a (le_of_lt hm)]
        exact (Int.emod_emod_of_dvd a dvd_rfl).symm
      have hrho : pymod p.1 m ≡ p.1 [ZMOD m] := by
        show pymod p.1 m % m = p.1 % m
        rw [pymod_eq_emod p.1 (le_of_lt hm)]
        exact Int.emod_emod_of_dvd p.1 dvd_rfl
      have hfinal : a * pymod p.1 m ≡ 1 [ZMOD m] := by
        calc a * pymod p.1 m ≡ aa * p.1 [ZMOD m] := hath.mul hrho
          _ = p.1 * aa := by ring
          _ ≡ 1 [ZMOD m] := hmod.symm
      exact hfinal

/-- C3 counterexample: at `a = 1, m = 1` the claim fails — the inverse
succeeds (gcd(0, 1) = 1) returning residue `0`, but `(1 * 0) mod 1 = 0`,
not `1`. -/
theorem C3_counterexample :
    ModuloInt.make 1 1 = .ok ⟨0, 1⟩ ∧
    ModuloInt.inverse ⟨0, 1⟩ = .ok ⟨0, 1⟩ ∧
    (1 * (0:ℤ)) % 1 ≠ 1 := by
  refine ⟨by decide, ?_, by decide⟩
  rw [ModuloInt.inverse, if_neg (by decide)]
  show ModuloInt.make (egcd 0 1 1 0).1 1 = .ok ⟨0, 1⟩
  rw [egcd_of_zero]
  decide

/-- C3 witness: at `a = 2, m = 3` the inverse is `2` and `(2 * 2) mod 3 = 1`. -/
theorem C3_witness :
    (ModuloInt.mk (pymod 2 3) 3).inverse = .ok ⟨2, 3⟩ ∧
    (2 * (2:ℤ)) % 3 = 1 % 3 := by
  have hinv : (ModuloInt.mk (pymod 2 3) 3).inverse = .ok ⟨2, 3⟩ := by
    have hp : pymod 2 3 = 2 := by decide
    rw [hp, ModuloInt.inverse, if_neg (by decide)]
    show ModuloInt.make (egcd 0 1 3 2).1 3 = .ok ⟨2, 3⟩
    have h32 : pydiv 3 2 = 1 := by decide
    rw [egcd_of_ne _ _ _ _ (by norm_num), h32]
    norm_num
    have h21 : pydiv 2 1 = 2 := by decide
    rw [egcd_of_ne _ _ _ _ (by norm_num), h21]
    norm_num
    rw [egcd_of_zero]
    decide
  have h := (C3_inverse_correct 2 3 (by norm_num)).2.2 ⟨2, 3⟩ (by
    have hp : pymod 2 3 = 2 := by decide
    rw [hp]
    rw [hp] at hinv
    exact hinv)
  exact ⟨hinv, h.2.2.2⟩

end BoundedNumbers
